import Mathlib

/-!
# ex_stan native bridge: boundary entry points

Shallow embedding of `lib/src/stan_services.cpp` (and of `lib/src/add.c`, whose
`add` / `add_nif` are the same text) together with the properties the
specification states about them.

* Host values (`ERL_NIF_TERM`) are the inductive type `Term`.
* C `int` is a 32-bit two's-complement integer: values are `Int`s in
  `[-2^31, 2^31 - 1]`, arithmetic wraps modulo `2^32`.
* C `unsigned int` is a `Nat` below `2^32`.
* An entry point receives `argv` as a list; `argc` is the length of that list.
* The `enif_*` functions belong to the host runtime, not to this repository;
  they are modelled from their documented contract.
-/

namespace ExStan

/-! ## Host terms -/

/-- Host runtime values. Integers are unbounded (the host has bignums), floats
are carried as their IEEE-754 binary64 bit pattern. -/
inductive Term where
  | integer (n : Int)
  | float (bits : Nat)
  | atom (name : String)
  | binary (bytes : List Nat)
  | tuple (elems : List Term)
  | nil
  | cons (head : Term) (tail : Term)

/-- The host list whose elements are `xs`, in order. -/
def Term.ofList : List Term → Term
  | [] => Term.nil
  | x :: xs => Term.cons x (Term.ofList xs)

def INT_MIN : Int := -2147483648

def INT_MAX : Int := 2147483647

def UINT_MOD : Nat := 4294967296

/-- The value is representable as a C `int`. -/
def inIntRange (x : Int) : Prop := INT_MIN ≤ x ∧ x ≤ INT_MAX

instance (x : Int) : Decidable (inIntRange x) := by
  unfold inIntRange; infer_instance

/-- Reduction of a mathematical integer to the C `int` with the same residue
modulo `2^32` (two's-complement wraparound). -/
def wrap_int (x : Int) : Int := (x + 2147483648) % 4294967296 - 2147483648

/-- Implicit conversion `unsigned int -> int` at a call site. -/
def int_of_unsigned (u : Nat) : Int := wrap_int (Int.ofNat u)

/-! ## Host runtime primitives (erl_nif) -/

/-- Contract of `enif_get_int`: succeeds exactly on integer terms that fit a C
`int`, yielding that value. -/
def enif_get_int (t : Term) : Option Int :=
  match t with
  | Term.integer n => if inIntRange n then some n else none
  | _ => none

/-- Number of cells of a proper list, `none` when the term is not a proper
list. -/
def erts_list_length : Term → Option Nat
  | Term.nil => some 0
  | Term.cons _ tl =>
    match erts_list_length tl with
    | some n => some (n + 1)
    | none => none
  | _ => none

/-- Contract of `enif_get_list_length`: fails on anything that is not a proper
list; on a proper list whose length is representable as an `unsigned` it
succeeds and stores that length through its `unsigned *` argument. A length
that an `unsigned` cannot hold is not stored: the call fails. -/
def enif_get_list_length (t : Term) : Option Nat :=
  match erts_list_length t with
  | some n => if n < UINT_MOD then some n else none
  | none => none

/-- Contract of `enif_make_int`: the integer term with the value of the `int`. -/
def enif_make_int (i : Int) : Term := Term.integer i

/-- What an entry point hands back to the host. -/
inductive Ret where
  /-- A term built by the entry point. -/
  | term (t : Term)
  /-- The value of `enif_make_badarg`: the call fails with `badarg`. -/
  | badarg
  /-- The body indexed `argv` at or beyond `argc`. -/
  | out_of_bounds

/-- One invocation of an entry point: the value returned and the indices of
the `argv` slots the body handed to a decoder, in program order. -/
structure Run where
  ret : Ret
  decoded : List Nat

/-! ## The program -/

/-- The C function `add`: `return a + b;` on two `int`s. -/
def add (a b : Int) : Int := wrap_int (a + b)

/-- Entry point `add_nif`: decodes `argv[0]` and `argv[1]` as ints, returns
their `add`. There is no test of `argc`. -/
def add_nif (argv : List Term) : Run :=
  match argv[0]? with
  | none => ⟨Ret.out_of_bounds, []⟩
  | some t0 =>
    match enif_get_int t0 with
    | none => ⟨Ret.badarg, [0]⟩
    | some a =>
      match argv[1]? with
      | none => ⟨Ret.out_of_bounds, [0]⟩
      | some t1 =>
        match enif_get_int t1 with
        | none => ⟨Ret.badarg, [0, 1]⟩
        | some b => ⟨Ret.term (enif_make_int (add a b)), [0, 1]⟩

/-- Entry point `new_model_nif`: after the `argc != 3` guard, `seed` is set to
the constant 42 (the decoding of an argument into it is commented out) and
returned. -/
def new_model_nif (argv : List Term) : Run :=
  if argv.length ≠ 3 then ⟨Ret.badarg, []⟩
  else
    let seed : Nat := 42
    ⟨Ret.term (enif_make_int (int_of_unsigned seed)), []⟩

/-- Entry point `new_array_var_context_nif`: after the `argc != 1` guard,
returns the length of the list in `argv[0]`. -/
def new_array_var_context_nif (argv : List Term) : Run :=
  if argv.length ≠ 1 then ⟨Ret.badarg, []⟩
  else
    match argv[0]? with
    | none => ⟨Ret.out_of_bounds, []⟩
    | some t0 =>
      match enif_get_list_length t0 with
      | none => ⟨Ret.badarg, [0]⟩
      | some len => ⟨Ret.term (enif_make_int (int_of_unsigned len)), [0]⟩

/-- One row of the registration table `nif_funcs`. -/
structure ErlNifFunc where
  name : String
  arity : Nat
  fptr : List Term → Run

/-- The table handed to `ERL_NIF_INIT` in `stan_services.cpp`. -/
def nif_funcs : List ErlNifFunc :=
  [⟨"add", 2, add_nif⟩,
   ⟨"new_model", 3, new_model_nif⟩,
   ⟨"new_array_var_context", 6, new_array_var_context_nif⟩]

/-- Host dispatch, from the host runtime's contract: a call `name(args)` is
routed to the row registered under that name with arity equal to the number of
arguments; with no such row the call never reaches native code. -/
def host_call (name : String) (args : List Term) : Option Run :=
  match nif_funcs.find? (fun e => e.name == name && e.arity == args.length) with
  | some e => some (e.fptr args)
  | none => none

/-- The values returned by a sequence of `new_model` calls, in call order. The
program keeps no state between calls, so each call is evaluated on its own. -/
def new_model_calls (calls : List (List Term)) : List Ret :=
  calls.map (fun argv => (new_model_nif argv).ret)

/-! ## Variable-context entries (data model of the specification) -/

theorem wrap_int_of_inIntRange (x : Int) (h : inIntRange x) : wrap_int x = x := by
  unfold inIntRange INT_MIN INT_MAX at h
  unfold wrap_int
  omega

theorem enif_get_int_eq_some (t : Term) (a : Int) (h : enif_get_int t = some a) :
    t = Term.integer a ∧ inIntRange a := by
  cases t with
  | integer n =>
    unfold enif_get_int at h
    by_cases hr : inIntRange n
    · simp [hr] at h
      subst h
      exact ⟨rfl, hr⟩
    · simp [hr] at h
  | _ => simp [enif_get_int] at h

theorem enif_get_int_integer (n : Int) (h : inIntRange n) :
    enif_get_int (Term.integer n) = some n := by
  simp [enif_get_int, h]

theorem add_nif_pair (t0 t1 : Term) (rest : List Term) :
    add_nif (t0 :: t1 :: rest) =
      match enif_get_int t0 with
      | none => ⟨Ret.badarg, [0]⟩
      | some a =>
        match enif_get_int t1 with
        | none => ⟨Ret.badarg, [0, 1]⟩
        | some b => ⟨Ret.term (Term.integer (add a b)), [0, 1]⟩ := by
  cases h0 : enif_get_int t0 <;> cases h1 : enif_get_int t1 <;>
    simp [add_nif, h0, h1, enif_make_int]

theorem erts_list_length_ofList (xs : List Term) :
    erts_list_length (Term.ofList xs) = some xs.length := by
  induction xs with
  | nil => rfl
  | cons x rest ih => simp [Term.ofList, erts_list_length, ih]

theorem erts_list_length_eq_some :
    ∀ (t : Term) (n : Nat), erts_list_length t = some n →
      ∃ xs, t = Term.ofList xs ∧ xs.length = n
  | Term.nil, n, h => by
    simp [erts_list_length] at h
    exact ⟨[], rfl, h⟩
  | Term.cons hd tl, n, h => by
    cases hl : erts_list_length tl with
    | none => simp [erts_list_length, hl] at h
    | some m =>
      simp [erts_list_length, hl] at h
      obtain ⟨xs, hx, hlen⟩ := erts_list_length_eq_some tl m hl
      exact ⟨hd :: xs, by simp [Term.ofList, hx], by simp [hlen, h]⟩
  | Term.integer _, _, h => by simp [erts_list_length] at h
  | Term.float _, _, h => by simp [erts_list_length] at h
  | Term.atom _, _, h => by simp [erts_list_length] at h
  | Term.binary _, _, h => by simp [erts_list_length] at h
  | Term.tuple _, _, h => by simp [erts_list_length] at h

theorem erts_list_length_eq_none_iff (t : Term) :
    erts_list_length t = none ↔ ¬ ∃ xs, t = Term.ofList xs := by
  constructor
  · rintro h ⟨xs, rfl⟩
    rw [erts_list_length_ofList] at h
    exact Option.noConfusion h
  · intro h
    cases hl : erts_list_length t with
    | none => rfl
    | some n =>
      obtain ⟨xs, hx, _⟩ := erts_list_length_eq_some t n hl
      exact absurd ⟨xs, hx⟩ h

theorem new_array_var_context_nif_single (t : Term) :
    new_array_var_context_nif [t] =
      match erts_list_length t with
      | none => ⟨Ret.badarg, [0]⟩
      | some n =>
        if n < UINT_MOD then ⟨Ret.term (Term.integer (int_of_unsigned n)), [0]⟩
        else ⟨Ret.badarg, [0]⟩ := by
  cases h : erts_list_length t with
  | none => simp [new_array_var_context_nif, enif_get_list_length, h]
  | some n =>
    by_cases hn : n < UINT_MOD <;>
      simp [new_array_var_context_nif, enif_get_list_length, enif_make_int, h, hn]

theorem new_array_var_context_nif_ofList (xs : List Term) (h : xs.length < UINT_MOD) :
    new_array_var_context_nif [Term.ofList xs] =
      ⟨Ret.term (Term.integer (int_of_unsigned xs.length)), [0]⟩ := by
  rw [new_array_var_context_nif_single, erts_list_length_ofList]
  simp only [h, if_true]

theorem ofList_length_eq (xs zs : List Term) (h : Term.ofList xs = Term.ofList zs) :
    zs.length = xs.length := by
  have e := congrArg erts_list_length h
  rw [erts_list_length_ofList, erts_list_length_ofList] at e
  exact (Option.some.inj e).symm

theorem lt_UINT_MOD_of_lt (n : Nat) (h : n < 2147483648) : n < UINT_MOD := by
  unfold UINT_MOD
  omega

theorem int_of_unsigned_small (n : Nat) (h : n < 2147483648) :
    int_of_unsigned n = (n : Int) := by
  unfold int_of_unsigned wrap_int
  simp only [Int.ofNat_eq_coe]
  omega

/-! ## Properties -/

/-- C1: when both arguments decode as C ints and their sum is representable as
a C int, `add_nif` on `[a, b]` returns the integer term `a + b`; in particular
`add(2, 3) = 5` and `add(-1, 1) = 0`. -/
theorem add_nif_returns_sum (ta tb : Term) (a b : Int)
    (ha : enif_get_int ta = some a) (hb : enif_get_int tb = some b)
    (hs : inIntRange (a + b)) :
    (add_nif [ta, tb]).ret = Ret.term (Term.integer (a + b)) ∧
    (add_nif [Term.integer 2, Term.integer 3]).ret = Ret.term (Term.integer 5) ∧
    (add_nif [Term.integer (-1), Term.integer 1]).ret = Ret.term (Term.integer 0) := by
  refine ⟨?_, rfl, rfl⟩
  rw [add_nif_pair, ha, hb]
  simp only [add, wrap_int_of_inIntRange _ hs]

theorem add_nif_returns_sum_witness :
    (add_nif [Term.integer 2147483000, Term.integer (-5000)]).ret
        = Ret.term (Term.integer (2147483000 + -5000)) ∧
    (add_nif [Term.integer 2, Term.integer 3]).ret = Ret.term (Term.integer 5) ∧
    (add_nif [Term.integer (-1), Term.integer 1]).ret = Ret.term (Term.integer 0) :=
  add_nif_returns_sum (Term.integer 2147483000) (Term.integer (-5000)) 2147483000 (-5000)
    (by rfl) (by rfl) (by decide)

/-- C10: with 32-bit wraparound, for all ints `a`, `b` the value of `add a b`
is a C int; it equals `a + b` exactly when `a + b` is a C int; otherwise it is
`a + b` shifted by exactly `2^32`; and `add 2147483647 1` is not `2147483648`. -/
theorem add_wraparound (a b : Int) (ha : inIntRange a) (hb : inIntRange b) :
    inIntRange (add a b) ∧
    (add a b = a + b ↔ inIntRange (a + b)) ∧
    (¬ inIntRange (a + b) →
      add a b = a + b - 4294967296 ∨ add a b = a + b + 4294967296) ∧
    add 2147483647 1 ≠ 2147483648 := by
  unfold inIntRange INT_MIN INT_MAX at *
  unfold add wrap_int
  refine ⟨by omega, by omega, by omega, by decide⟩

theorem add_wraparound_witness :
    inIntRange (add 2147483647 1) ∧
    (add 2147483647 1 = 2147483647 + 1 ↔ inIntRange (2147483647 + 1)) ∧
    (¬ inIntRange (2147483647 + 1) →
      add 2147483647 1 = 2147483647 + 1 - 4294967296 ∨
      add 2147483647 1 = 2147483647 + 1 + 4294967296) ∧
    add 2147483647 1 ≠ 2147483648 :=
  add_wraparound 2147483647 1 (by decide) (by decide)

/-- C4: on a two-element argument vector `add_nif` returns bad-argument exactly
when one of the two arguments fails to decode as an int, where failing to
decode means not being an integer term within the C int range; a bad-argument
return is no integer term, and when both decode the return is the integer term
of their `add`, never bad-argument. -/
theorem add_nif_badarg_iff (t0 t1 : Term) :
    ((add_nif [t0, t1]).ret = Ret.badarg ↔
      (enif_get_int t0 = none ∨ enif_get_int t1 = none)) ∧
    (∀ t : Term, enif_get_int t = none ↔ ¬ ∃ n, t = Term.integer n ∧ inIntRange n) ∧
    ((add_nif [t0, t1]).ret = Ret.badarg →
      ∀ n, (add_nif [t0, t1]).ret ≠ Ret.term (Term.integer n)) ∧
    (∀ a b, enif_get_int t0 = some a → enif_get_int t1 = some b →
      (add_nif [t0, t1]).ret = Ret.term (Term.integer (add a b)) ∧
      (add_nif [t0, t1]).ret ≠ Ret.badarg) := by
  refine ⟨?_, ?_, ?_, ?_⟩
  · rw [add_nif_pair]
    cases h0 : enif_get_int t0 <;> cases h1 : enif_get_int t1 <;> simp
  · intro t
    constructor
    · rintro h ⟨n, rfl, hn⟩
      rw [enif_get_int_integer n hn] at h
      exact Option.noConfusion h
    · intro h
      cases hg : enif_get_int t with
      | none => rfl
      | some a => exact absurd ⟨a, enif_get_int_eq_some t a hg⟩ h
  · intro h n hn
    rw [h] at hn
    exact Ret.noConfusion hn
  · intro a b ha hb
    rw [add_nif_pair, ha, hb]
    exact ⟨rfl, fun h => Ret.noConfusion h⟩

theorem add_nif_badarg_iff_witness :
    (add_nif [Term.atom "two", Term.integer 3]).ret = Ret.badarg ∧
    (add_nif [Term.integer 2, Term.integer 2147483648]).ret = Ret.badarg ∧
    (add_nif [Term.integer 2, Term.integer 3]).ret = Ret.term (Term.integer (add 2 3)) :=
  ⟨(add_nif_badarg_iff (Term.atom "two") (Term.integer 3)).1.mpr (Or.inl rfl),
   (add_nif_badarg_iff (Term.integer 2) (Term.integer 2147483648)).1.mpr (Or.inr rfl),
   ((add_nif_badarg_iff (Term.integer 2) (Term.integer 3)).2.2.2 2 3 rfl rfl).1⟩

/-- C9: the result of `new_model_nif` is a function of the argument count
alone; any two argument vectors of length 3 both yield the integer term 42, no
argument is decoded, and replacing the seed argument leaves the result
unchanged. -/
theorem new_model_nif_constant (argv argv' : List Term)
    (h : argv.length = 3) (h' : argv'.length = 3) :
    (new_model_nif argv).ret = Ret.term (Term.integer 42) ∧
    (new_model_nif argv').ret = Ret.term (Term.integer 42) ∧
    new_model_nif argv = new_model_nif argv' ∧
    (new_model_nif argv).decoded = [] ∧
    (∀ u c s s' : Term, new_model_nif [u, c, s] = new_model_nif [u, c, s']) ∧
    (∀ xs ys : List Term, xs.length = ys.length → new_model_nif xs = new_model_nif ys) := by
  have key : ∀ xs ys : List Term, xs.length = ys.length →
      new_model_nif xs = new_model_nif ys := by
    intro xs ys hl
    simp only [new_model_nif, hl]
  refine ⟨?_, ?_, key argv argv' (h.trans h'.symm), ?_, fun u c s s' => rfl, key⟩
  · simp only [new_model_nif, h]
    rfl
  · simp only [new_model_nif, h']
    rfl
  · simp only [new_model_nif, h]
    rfl

theorem new_model_nif_constant_witness :
    (new_model_nif [Term.atom "unit", Term.nil, Term.integer 1]).ret
      = Ret.term (Term.integer 42) ∧
    (new_model_nif [Term.atom "other", Term.nil, Term.integer 2]).ret
      = Ret.term (Term.integer 42) :=
  ⟨(new_model_nif_constant [Term.atom "unit", Term.nil, Term.integer 1]
      [Term.atom "other", Term.nil, Term.integer 2] rfl rfl).1,
   (new_model_nif_constant [Term.atom "unit", Term.nil, Term.integer 1]
      [Term.atom "other", Term.nil, Term.integer 2] rfl rfl).2.1⟩

/-- C2, as stated, fails: two successful 3-argument `new_model` calls (with
different seeds) return the same value 42, so the returned handles are not
pairwise distinct. -/
theorem new_model_handles_collide :
    2 ≤ [[Term.atom "unit", Term.nil, Term.integer 1],
         [Term.atom "unit", Term.nil, Term.integer 2]].length ∧
    new_model_calls [[Term.atom "unit", Term.nil, Term.integer 1],
                     [Term.atom "unit", Term.nil, Term.integer 2]]
      = [Ret.term (Term.integer 42), Ret.term (Term.integer 42)] ∧
    ¬ (new_model_calls [[Term.atom "unit", Term.nil, Term.integer 1],
                        [Term.atom "unit", Term.nil, Term.integer 2]]).Nodup := by
  refine ⟨by decide, rfl, ?_⟩
  have e : new_model_calls [[Term.atom "unit", Term.nil, Term.integer 1],
      [Term.atom "unit", Term.nil, Term.integer 2]]
      = [Ret.term (Term.integer 42), Ret.term (Term.integer 42)] := rfl
  rw [e]
  simp

/-- C2, amended: there is no handle registry; in every sequence of `new_model`
calls with 3 arguments each, every call succeeds with the same integer term
42, so the sequence of returned values is 42 repeated once per call. -/
theorem new_model_calls_all_42 (calls : List (List Term))
    (h3 : ∀ argv ∈ calls, argv.length = 3) :
    new_model_calls calls = List.replicate calls.length (Ret.term (Term.integer 42)) := by
  induction calls with
  | nil => rfl
  | cons argv rest ih =>
    have ha : argv.length = 3 := h3 argv (List.mem_cons_self _ _)
    have hr : ∀ a ∈ rest, a.length = 3 := fun a hm => h3 a (List.mem_cons_of_mem _ hm)
    have hh : (new_model_nif argv).ret = Ret.term (Term.integer 42) := by
      simp only [new_model_nif, ha]
      rfl
    have ih' := ih hr
    unfold new_model_calls at ih' ⊢
    rw [List.map_cons, ih', hh]
    rfl

theorem new_model_calls_all_42_witness :
    new_model_calls [[Term.atom "unit", Term.nil, Term.integer 1],
                     [Term.atom "unit", Term.nil, Term.integer 2],
                     [Term.atom "unit", Term.nil, Term.integer 3]]
      = List.replicate 3 (Ret.term (Term.integer 42)) :=
  new_model_calls_all_42 [[Term.atom "unit", Term.nil, Term.integer 1],
                          [Term.atom "unit", Term.nil, Term.integer 2],
                          [Term.atom "unit", Term.nil, Term.integer 3]]
    (by intro argv hm; simp at hm; rcases hm with rfl | rfl | rfl <;> rfl)

/-- C7: the table registers `new_array_var_context` with arity 6 and the
single-argument implementation; on every argument vector of length 6 that
implementation returns bad-argument without decoding anything, and every host
call of that name that reaches native code returns bad-argument. -/
theorem new_array_var_context_arity_mismatch (argv : List Term) (h : argv.length = 6) :
    (∃ e ∈ nif_funcs, e.name = "new_array_var_context" ∧ e.arity = 6 ∧
      e.fptr = new_array_var_context_nif) ∧
    (∀ e ∈ nif_funcs, e.name = "new_array_var_context" → e.arity = 6) ∧
    (new_array_var_context_nif argv).ret = Ret.badarg ∧
    (new_array_var_context_nif argv).decoded = [] ∧
    host_call "new_array_var_context" argv = some (new_array_var_context_nif argv) ∧
    (∀ (args : List Term) (r : Run),
      host_call "new_array_var_context" args = some r → r.ret = Ret.badarg) := by
  have hbad : ∀ xs : List Term, xs.length = 6 →
      (new_array_var_context_nif xs).ret = Ret.badarg ∧
      (new_array_var_context_nif xs).decoded = [] := by
    intro xs hx
    simp [new_array_var_context_nif, hx]
  have hcall : ∀ args : List Term, host_call "new_array_var_context" args =
      if args.length = 6 then some (new_array_var_context_nif args) else none := by
    intro args
    by_cases hl : args.length = 6
    · simp [host_call, nif_funcs, List.find?, hl]
    · have hb : (6 == args.length) = false := beq_false_of_ne (fun e => hl e.symm)
      simp [host_call, nif_funcs, List.find?, hl, hb]
  refine ⟨⟨⟨"new_array_var_context", 6, new_array_var_context_nif⟩, ?_, rfl, rfl, rfl⟩,
    ?_, (hbad argv h).1, (hbad argv h).2, ?_, ?_⟩
  · simp [nif_funcs]
  · intro e he hn
    simp only [nif_funcs, List.mem_cons, List.mem_singleton, List.not_mem_nil, or_false] at he
    rcases he with rfl | rfl | rfl
    · simp at hn
    · simp at hn
    · rfl
  · rw [hcall, if_pos h]
  · intro args r hr
    rw [hcall] at hr
    by_cases hl : args.length = 6
    · rw [if_pos hl] at hr
      cases hr
      exact (hbad args hl).1
    · rw [if_neg hl] at hr
      exact Option.noConfusion hr

theorem new_array_var_context_arity_mismatch_witness :
    (new_array_var_context_nif
      [Term.nil, Term.nil, Term.nil, Term.nil, Term.nil, Term.nil]).ret = Ret.badarg :=
  (new_array_var_context_arity_mismatch
    [Term.nil, Term.nil, Term.nil, Term.nil, Term.nil, Term.nil] rfl).2.2.1

/-- C8, as stated, fails: on a proper list of `2^31` elements the value
returned is the integer term `-2^31`, not the number of elements. -/
theorem list_length_wraps_at_two_pow_31 :
    (List.replicate 2147483648 (Term.integer 0)).length = 2147483648 ∧
    (new_array_var_context_nif
        [Term.ofList (List.replicate 2147483648 (Term.integer 0))]).ret
      = Ret.term (Term.integer (-2147483648)) ∧
    (new_array_var_context_nif
        [Term.ofList (List.replicate 2147483648 (Term.integer 0))]).ret
      ≠ Ret.term (Term.integer 2147483648) := by
  have hl : (List.replicate 2147483648 (Term.integer 0)).length < UINT_MOD := by
    rw [List.length_replicate]
    decide
  have e : (new_array_var_context_nif
        [Term.ofList (List.replicate 2147483648 (Term.integer 0))]).ret
      = Ret.term (Term.integer (-2147483648)) := by
    rw [new_array_var_context_nif_ofList _ hl, List.length_replicate]
    rfl
  refine ⟨List.length_replicate _ _, e, ?_⟩
  rw [e]
  intro h
  have h1 := Term.integer.inj (Ret.term.inj h)
  omega

/-- C8, amended: on a one-element argument vector whose argument is not a
proper list of `2^31` or more elements, `new_array_var_context_nif` returns
bad-argument exactly when the argument is not a proper list; on a proper list
of fewer than `2^31` elements it returns the integer term equal to the number of
elements, whatever the elements are. -/
theorem new_array_var_context_nif_length (t : Term) (xs ys : List Term)
    (hb : ∀ zs, t = Term.ofList zs → zs.length < 2147483648)
    (hx : xs.length < 2147483648) :
    ((new_array_var_context_nif [t]).ret = Ret.badarg ↔ ¬ ∃ zs, t = Term.ofList zs) ∧
    (new_array_var_context_nif [Term.ofList xs]).ret
      = Ret.term (Term.integer (Int.ofNat xs.length)) ∧
    (new_array_var_context_nif [Term.ofList xs]).decoded = [0] ∧
    (xs.length = ys.length →
      new_array_var_context_nif [Term.ofList xs]
        = new_array_var_context_nif [Term.ofList ys]) := by
  have hrun : ∀ zs : List Term, zs.length < 2147483648 →
      new_array_var_context_nif [Term.ofList zs]
        = ⟨Ret.term (Term.integer (Int.ofNat zs.length)), [0]⟩ := by
    intro zs hz
    rw [new_array_var_context_nif_ofList zs (lt_UINT_MOD_of_lt _ hz),
      int_of_unsigned_small _ hz]
    rfl
  refine ⟨?_, ?_, ?_, ?_⟩
  · constructor
    · rintro h ⟨zs, rfl⟩
      rw [hrun zs (hb zs rfl)] at h
      exact Ret.noConfusion h
    · intro h
      rw [new_array_var_context_nif_single,
        (erts_list_length_eq_none_iff t).mpr h]
  · rw [hrun xs hx]
  · rw [hrun xs hx]
  · intro h
    rw [hrun xs hx, hrun ys (h ▸ hx), h]

theorem new_array_var_context_nif_length_witness :
    (new_array_var_context_nif [Term.atom "data"]).ret = Ret.badarg ∧
    (new_array_var_context_nif
        [Term.ofList [Term.atom "a", Term.tuple [], Term.float 0]]).ret
      = Ret.term (Term.integer (Int.ofNat 3)) ∧
    new_array_var_context_nif [Term.ofList [Term.atom "a", Term.tuple [], Term.float 0]]
      = new_array_var_context_nif
          [Term.ofList [Term.integer 1, Term.integer 2, Term.integer 3]] ∧
    (new_array_var_context_nif [Term.ofList [Term.nil, Term.atom "b"]]).ret ≠ Ret.badarg :=
  ⟨(new_array_var_context_nif_length (Term.atom "data")
      [Term.atom "a", Term.tuple [], Term.float 0]
      [Term.integer 1, Term.integer 2, Term.integer 3]
      (by intro zs hz; cases zs <;> exact Term.noConfusion hz) (by decide)).1.mpr
      (by rintro ⟨zs, hz⟩; cases zs <;> exact Term.noConfusion hz),
   (new_array_var_context_nif_length (Term.atom "data")
      [Term.atom "a", Term.tuple [], Term.float 0]
      [Term.integer 1, Term.integer 2, Term.integer 3]
      (by intro zs hz; cases zs <;> exact Term.noConfusion hz) (by decide)).2.1,
   (new_array_var_context_nif_length (Term.atom "data")
      [Term.atom "a", Term.tuple [], Term.float 0]
      [Term.integer 1, Term.integer 2, Term.integer 3]
      (by intro zs hz; cases zs <;> exact Term.noConfusion hz) (by decide)).2.2.2 rfl,
   fun h => (new_array_var_context_nif_length (Term.ofList [Term.nil, Term.atom "b"]) [] []
      (by intro zs hz; rw [ofList_length_eq _ zs hz]; decide) (by decide)).1.mp h
      ⟨[Term.nil, Term.atom "b"], rfl⟩⟩

end ExStan
